import Mathlib

/-!
Verification of the review-royale core: session builder, score calculator,
sync orchestrator (pagination, rate-limit handling) and recalculation job.

Shallow embedding conventions:
* `DateTime<Utc>` timestamps are modelled as `Int` (seconds); `Duration::hours(24)`
  is `86400`, `Duration::minutes(1)` is `60`, `Duration::hours(1)` is `3600`,
  `Duration::hours(4)` is `4 * 3600`, `Duration::days(d)` is `d * 86400`.
* `Uuid` keys are modelled as `Nat`, GitHub `i64` ids as `Int`.
* `i32`/`i64` arithmetic is modelled on `Int` (the quantities involved are
  counts and XP totals far below any overflow boundary).
* Database rows are modelled as association lists; fallible calls as `Except`.
-/

namespace ReviewRoyale

/-- Review state from `common/src/models.rs` (`enum ReviewState`). -/
inductive ReviewState
  | Approved
  | ChangesRequested
  | Commented
  | Dismissed
  | Pending
deriving DecidableEq, Inhabited

/-- PR state from `common/src/models.rs` (`enum PrState`). -/
inductive PrState
  | Open
  | Merged
  | Closed
deriving DecidableEq, Inhabited

/-- A persisted review row, from `common/src/models.rs` (`struct Review`). -/
structure Review where
  id : Nat
  pr_id : Nat
  reviewer_id : Nat
  github_id : Int
  state : ReviewState
  body : Option String
  comments_count : Int
  submitted_at : Int
deriving DecidableEq, Inhabited

/-- A persisted commit row, from `common/src/models.rs` (`struct Commit`). -/
structure Commit where
  id : Nat
  pr_id : Nat
  sha : String
  author_id : Option Nat
  committed_at : Int
  message : Option String
  created_at : Int
deriving DecidableEq, Inhabited

/-- A persisted pull-request row, from `common/src/models.rs`
(`struct PullRequest`). -/
structure PullRequest where
  id : Nat
  repo_id : Nat
  github_id : Int
  number : Int
  title : String
  author_id : Nat
  state : PrState
  created_at : Int
  first_review_at : Option Int
  merged_at : Option Int
  closed_at : Option Int
deriving DecidableEq, Inhabited

/-- A grouped review session, from `processor/src/sessions.rs`
(`struct ReviewSession`). -/
structure ReviewSession where
  pr_id : Nat
  reviewer_id : Nat
  reviews : List Review
  started_at : Int
  ended_at : Int
  total_comments : Int
deriving DecidableEq, Inhabited

/-- Sort key order for reviews: `sorted_reviews.sort_by_key(|r| r.submitted_at)`.
Rust's `sort_by_key` is a stable sort; `List.insertionSort` with this total
preorder is likewise stable, so both produce the same list. -/
def reviewLe (a b : Review) : Prop := a.submitted_at ≤ b.submitted_at

instance : DecidableRel reviewLe := fun a b =>
  inferInstanceAs (Decidable (a.submitted_at ≤ b.submitted_at))

/-- Sort key order for commits: `sorted_commits.sort_by_key(|c| c.committed_at)`. -/
def commitLe (a b : Commit) : Prop := a.committed_at ≤ b.committed_at

instance : DecidableRel commitLe := fun a b =>
  inferInstanceAs (Decidable (a.committed_at ≤ b.committed_at))

instance : IsTotal Review reviewLe :=
  ⟨fun a b => le_total a.submitted_at b.submitted_at⟩

instance : IsTrans Review reviewLe :=
  ⟨fun _ _ _ hab hbc => le_trans hab hbc⟩

/-- The commit check of `group_reviews_into_sessions` (sessions.rs lines 47-51):
`sorted_commits.iter().any(|c| c.pr_id == review.pr_id && c.committed_at > last_time
&& c.committed_at < review.submitted_at)`. -/
def commits_between (commits : List Commit) (pr_id : Nat) (last_time now : Int) : Bool :=
  commits.any fun c =>
    decide (c.pr_id = pr_id) && decide (last_time < c.committed_at)
      && decide (c.committed_at < now)

/-- The per-event boundary test of `group_reviews_into_sessions`
(sessions.rs lines 40-56): a >24h gap, or else a commit strictly between the
previous event and this one. -/
def should_start_new_session (commits : List Commit) (last_review_time : Option Int)
    (review : Review) : Bool :=
  match last_review_time with
  | none => false
  | some last_time =>
    if 86400 < review.submitted_at - last_time then true
    else commits_between commits review.pr_id last_time review.submitted_at

/-- The accumulator loop of `group_reviews_into_sessions` (sessions.rs lines
35-75): `cur` is `current_session_reviews`, the `Option Int` is
`last_review_time`; closed groups are emitted in order. -/
def session_loop (commits : List Commit) :
    List Review → List Review → Option Int → List (List Review)
  | [], cur, _ => if cur.isEmpty then [] else [cur]
  | r :: rest, cur, last =>
    if should_start_new_session commits last r && !cur.isEmpty then
      cur :: session_loop commits rest [r] (some r.submitted_at)
    else
      session_loop commits rest (cur ++ [r]) (some r.submitted_at)

/-- `finalize_session` (sessions.rs lines 80-99): `started_at`/`ended_at` are
the min/max of the events' submission times, `total_comments` the sum of the
events' comment counts. -/
def finalize_session : List Review → Option ReviewSession
  | [] => none
  | r :: rs =>
    some
      { pr_id := r.pr_id
        reviewer_id := r.reviewer_id
        reviews := r :: rs
        started_at := rs.foldl (fun a x => min a x.submitted_at) r.submitted_at
        ended_at := rs.foldl (fun a x => max a x.submitted_at) r.submitted_at
        total_comments := (r :: rs).foldl (fun a x => a + x.comments_count) 0 }

/-- `group_reviews_into_sessions` (sessions.rs lines 19-78). -/
def group_reviews_into_sessions (reviews : List Review) (commits : List Commit) :
    List ReviewSession :=
  if reviews.isEmpty then []
  else
    let sorted_reviews := reviews.insertionSort reviewLe
    let sorted_commits := commits.insertionSort commitLe
    (session_loop sorted_commits sorted_reviews [] none).filterMap finalize_session

/-- The state-change test of `calculate_session_xp` (sessions.rs lines 107-110). -/
def has_state_change (session : ReviewSession) : Bool :=
  session.reviews.any fun r =>
    decide (r.state = ReviewState.Approved) || decide (r.state = ReviewState.ChangesRequested)

/-- `calculate_session_xp` (sessions.rs lines 102-149): rejection rules, base
10, +5 per comment, fast-review +10, thorough +5 (>5 comments), deep +10
(>10 comments). -/
def calculate_session_xp (session : ReviewSession) (commit_before_session : Option Int) :
    Int :=
  if session.total_comments = 0 ∧ ¬ has_state_change session then 0
  else if has_state_change session ∧ session.total_comments = 0 ∧
      session.ended_at - session.started_at < 60 then 0
  else
    let xp : Int := 10 + session.total_comments * 5
    let xp :=
      match commit_before_session with
      | some commit_time =>
        let review_delay := session.started_at - commit_time
        if review_delay < 3600 ∧ 0 < review_delay then xp + 10 else xp
      | none => xp
    let xp := if 5 < session.total_comments then xp + 5 else xp
    let xp := if 10 < session.total_comments then xp + 10 else xp
    xp

/-- Quality aggregate from `db/src/review_comments.rs` (`struct
CommentQualityData`): counts by tier `(low, medium, high)`, by category
`(logic, structural, other)`, plus the categorized-comment count. -/
structure CommentQualityData where
  by_tier : Int × Int × Int
  by_category : Int × Int × Int
  categorized_count : Int
deriving DecidableEq, Inhabited

/-- Modelled from the spec: `calculate_session_xp_with_quality` is imported by
`processor/src/recalculate.rs` from `crate::sessions` and exercised by
`sessions_test.rs`, but its definition is not among the provided sources.
Modelled from spec section 4.2: the same rejection rules as
`calculate_session_xp`; with quality supplied the comment XP is +2 per
low-tier, +5 per medium-tier, +8 per high-tier, +5 per still-uncategorized
comment (`total_comments - categorized_count`), +3 per logic-category and +2
per structural-category comment, with the same fast/thorough/deep bonuses.
This reproduces every expectation in `sessions_test.rs` (see the examples
below). -/
def calculate_session_xp_with_quality (session : ReviewSession)
    (commit_before_session : Option Int) (quality : Option CommentQualityData) : Int :=
  match quality with
  | none => calculate_session_xp session commit_before_session
  | some q =>
    if session.total_comments = 0 ∧ ¬ has_state_change session then 0
    else if has_state_change session ∧ session.total_comments = 0 ∧
        session.ended_at - session.started_at < 60 then 0
    else
      let low := q.by_tier.1
      let medium := q.by_tier.2.1
      let high := q.by_tier.2.2
      let logic_count := q.by_category.1
      let structural_count := q.by_category.2.1
      let uncategorized := session.total_comments - q.categorized_count
      let xp : Int := 10 + 2 * low + 5 * medium + 8 * high + 5 * uncategorized
        + 3 * logic_count + 2 * structural_count
      let xp :=
        match commit_before_session with
        | some commit_time =>
          let review_delay := session.started_at - commit_time
          if review_delay < 3600 ∧ 0 < review_delay then xp + 10 else xp
        | none => xp
      let xp := if 5 < session.total_comments then xp + 5 else xp
      let xp := if 10 < session.total_comments then xp + 10 else xp
      xp

/-- Test fixture mirroring `sessions_test.rs`'s `make_review`. -/
def mk_review (pr_id reviewer_id : Nat) (submitted_at : Int) (state : ReviewState)
    (comments : Int) : Review :=
  { id := 0, pr_id := pr_id, reviewer_id := reviewer_id, github_id := 1, state := state
    body := none, comments_count := comments, submitted_at := submitted_at }

/-- Test fixture mirroring `sessions_test.rs`'s `make_commit`. -/
def mk_commit (pr_id : Nat) (committed_at : Int) : Commit :=
  { id := 0, pr_id := pr_id, sha := "s", author_id := none, committed_at := committed_at
    message := none, created_at := committed_at }

-- Model validation against sessions_test.rs (`test_xp_with_comments`,
-- `test_xp_deep_review`, `test_xp_rubber_stamp_no_credit`).
example :
    calculate_session_xp
      { pr_id := 1, reviewer_id := 2
        reviews := [mk_review 1 2 0 ReviewState.ChangesRequested 7]
        started_at := 0, ended_at := 1800, total_comments := 7 } none = 50 := by decide

example :
    calculate_session_xp
      { pr_id := 1, reviewer_id := 2
        reviews := [mk_review 1 2 0 ReviewState.ChangesRequested 12]
        started_at := 0, ended_at := 3600, total_comments := 12 } none = 85 := by decide

example :
    calculate_session_xp
      { pr_id := 1, reviewer_id := 2
        reviews := [mk_review 1 2 0 ReviewState.Approved 0]
        started_at := 0, ended_at := 30, total_comments := 0 } none = 0 := by decide

-- Model validation against sessions_test.rs quality tests
-- (`test_xp_quality_weighted_high_quality`, `test_xp_quality_weighted_mixed`,
-- `test_xp_quality_weighted_low_quality`, `test_xp_quality_with_uncategorized`).
example :
    calculate_session_xp_with_quality
      { pr_id := 1, reviewer_id := 2
        reviews := [mk_review 1 2 0 ReviewState.ChangesRequested 5]
        started_at := 0, ended_at := 1800, total_comments := 5 } none
      (some { by_tier := (0, 0, 5), by_category := (2, 1, 2), categorized_count := 5 })
      = 58 := by decide

example :
    calculate_session_xp_with_quality
      { pr_id := 1, reviewer_id := 2
        reviews := [mk_review 1 2 0 ReviewState.ChangesRequested 8]
        started_at := 0, ended_at := 1800, total_comments := 8 } none
      (some { by_tier := (2, 3, 3), by_category := (1, 0, 7), categorized_count := 8 })
      = 61 := by decide

example :
    calculate_session_xp_with_quality
      { pr_id := 1, reviewer_id := 2
        reviews := [mk_review 1 2 0 ReviewState.ChangesRequested 3]
        started_at := 0, ended_at := 1800, total_comments := 3 } none
      (some { by_tier := (3, 0, 0), by_category := (0, 0, 3), categorized_count := 3 })
      = 16 := by decide

example :
    calculate_session_xp_with_quality
      { pr_id := 1, reviewer_id := 2
        reviews := [mk_review 1 2 0 ReviewState.ChangesRequested 6]
        started_at := 0, ended_at := 1800, total_comments := 6 } none
      (some { by_tier := (1, 2, 1), by_category := (1, 0, 3), categorized_count := 4 })
      = 48 := by decide

-- Model validation against sessions_test.rs grouping tests
-- (`test_24h_gap_creates_new_session`, `test_commits_create_session_boundary`).
example :
    (group_reviews_into_sessions
      [mk_review 1 2 0 ReviewState.Commented 3,
       mk_review 1 2 90000 ReviewState.Approved 2] []).map (·.total_comments)
      = [3, 2] := by decide

example :
    (group_reviews_into_sessions
      [mk_review 1 2 0 ReviewState.Commented 3,
       mk_review 1 2 1800 ReviewState.Approved 2]
      [mk_commit 1 900]).map (·.total_comments) = [3, 2] := by decide

/-- `metrics::is_fast_review` (processor/src/metrics.rs): under 4 hours after
PR creation. -/
def is_fast_review (pr_created review_submitted : Int) : Bool :=
  decide (review_submitted - pr_created < 4 * 3600)

/-- `metrics::is_first_review` (processor/src/metrics.rs). -/
def is_first_review (pr : PullRequest) (review_submitted : Int) : Bool :=
  match pr.first_review_at with
  | some first => decide (first = review_submitted)
  | none => true

/-- `ScoreCalculator::calculate_review_xp` (processor/src/scores.rs lines
25-48): base 10, +15 first review, +10 fast review, +5 per comment capped at
+50. This is the per-review formula used by the ONLINE backfill path. -/
def calculate_review_xp (pr : PullRequest) (review_submitted : Int)
    (comments_count : Int) : Int :=
  let xp : Int := 10
  let xp := if is_first_review pr review_submitted then xp + 15 else xp
  let xp := if is_fast_review pr.created_at review_submitted then xp + 10 else xp
  let comment_xp := min (comments_count * 5) 50
  xp + comment_xp

/-! ### GitHub client: PR-list pagination (github/src/client.rs) -/

/-- A PR as returned by the GitHub API (`struct GithubPr`), fields relevant to
pagination and persistence. -/
structure GithubPr where
  id : Int
  number : Int
  state : String
  created_at : Int
  updated_at : Int
  merged_at : Option Int
  closed_at : Option Int
deriving DecidableEq, Inhabited

/-- The page the API returns for page number `page` (1-based); pages beyond
the supplied listing are empty. -/
def page_fetch (pages : List (List GithubPr)) (page : Nat) : List GithubPr :=
  pages.getD (page - 1) []

/-- The pagination loop of `fetch_prs_since` (client.rs lines 213-251), with
the page contents supplied as data. The first component is `all_prs`, the
second the number of page fetches issued. `fuel` counts the pages the 50-page
safety cap still allows (the Rust loop breaks once `page > 50`); the model is
invoked with `fuel = 50`. Within a page, PRs at or after the cutoff are kept;
the first older PR sets `should_stop`. The Rust `oldest_in_page` check is kept
as the `min?` branch. -/
def fetch_pages (pages : List (List GithubPr)) (cutoff : Int) :
    Nat → Nat → List GithubPr × Nat
  | 0, _ => ([], 0)
  | fuel + 1, page =>
    let prs := page_fetch pages page
    if prs.isEmpty then ([], 1)
    else
      let kept := prs.takeWhile fun p => decide (cutoff ≤ p.updated_at)
      if kept.length < prs.length then (kept, 1)
      else if (((prs.map (·.updated_at)).min?).map fun d => decide (d < cutoff)).getD
          false then (kept, 1)
      else
        let next := fetch_pages pages cutoff fuel (page + 1)
        (kept ++ next.1, next.2 + 1)

/-- `fetch_prs_since` (client.rs lines 199-255): the cutoff is the cursor when
one exists (`since.unwrap_or_else(|| now - Duration::days(max_age_days))`),
otherwise `now - max_age_days`. -/
def fetch_prs_since (pages : List (List GithubPr)) (since : Option Int)
    (now : Int) (max_age_days : Int) : List GithubPr × Nat :=
  let cutoff := since.getD (now - max_age_days * 86400)
  fetch_pages pages cutoff 50 1

/-! ### Backfill orchestrator: error flow (processor/src/backfill.rs) -/

/-- `ClientError` (github/src/client.rs). -/
inductive ClientError
  | Http
  | RateLimited (retry_after : Nat)
  | NotFound
  | Api (status : Nat)
deriving DecidableEq

/-- `BackfillError` (processor/src/backfill.rs). -/
inductive BackfillError
  | GitHub (e : ClientError)
  | Database
  | RateLimited (retry_after : Nat)
deriving DecidableEq

/-- `BackfillProgress` (processor/src/backfill.rs), without the transient
`current_pr` display field. -/
structure BackfillProgress where
  prs_processed : Nat
  prs_total : Nat
  reviews_processed : Nat
  users_created : Nat
deriving DecidableEq, Inhabited

/-- The per-PR loop of `backfill_repo` (backfill.rs lines 98-128): a
`RateLimited` failure from `process_pr` persists the cursor as `sync_start`
and aborts; any other per-PR failure is skipped; completion persists the
cursor as `sync_start`. The second component is the repository's persisted
`last_synced_at` after the loop. -/
def backfill_loop (sync_start : Int)
    (process : GithubPr → Except BackfillError (Nat × Nat)) :
    List GithubPr → BackfillProgress →
      Except BackfillError BackfillProgress × Option Int
  | [], prog => (.ok prog, some sync_start)
  | pr :: rest, prog =>
    match process pr with
    | .ok (reviews_count, new_users) =>
      backfill_loop sync_start process rest
        { prog with
            prs_processed := prog.prs_processed + 1
            reviews_processed := prog.reviews_processed + reviews_count
            users_created := prog.users_created + new_users }
    | .error (.RateLimited retry_after) => (.error (.RateLimited retry_after), some sync_start)
    | .error _ =>
      backfill_loop sync_start process rest
        { prog with prs_processed := prog.prs_processed + 1 }

/-- `backfill_repo` (backfill.rs lines 53-139) as a function of the outcomes of
its network calls. `cursor0` is the repository's stored `last_synced_at` before
the run; the second component is the stored value after the run. The repo
lookup and the PR-list fetch propagate their errors with `?`, which wraps a
`ClientError` as `BackfillError::GitHub` and leaves the cursor untouched. -/
def backfill_repo_run (cursor0 : Option Int) (sync_start : Int)
    (repo_fetch : Except ClientError Unit)
    (prs_fetch : Except ClientError (List GithubPr))
    (process : GithubPr → Except BackfillError (Nat × Nat)) :
    Except BackfillError BackfillProgress × Option Int :=
  match repo_fetch with
  | .error e => (.error (.GitHub e), cursor0)
  | .ok _ =>
    match prs_fetch with
    | .error e => (.error (.GitHub e), cursor0)
    | .ok prs =>
      backfill_loop sync_start process prs
        { prs_processed := 0, prs_total := prs.length
          reviews_processed := 0, users_created := 0 }

/-! ### Backfill per-PR processing: online XP awards (backfill.rs process_pr) -/

/-- A review as returned by the GitHub API (`struct GithubReview`), with the
reviewer's user id when present. -/
structure GithubReview where
  id : Int
  user : Option Nat
  state : String
  submitted_at : Option Int
deriving DecidableEq, Inhabited

/-- A review comment as returned by the GitHub API
(`struct GithubReviewComment`). -/
structure GithubReviewComment where
  id : Int
  pull_request_review_id : Option Int
deriving DecidableEq, Inhabited

/-- The `comment_counts` HashMap of `process_pr` (backfill.rs lines 219-226),
read back with `unwrap_or(0)`: the number of fetched comments attached to the
given review id. -/
def comment_count_for (comments : List GithubReviewComment) (review_id : Int) : Int :=
  ((comments.filter fun c =>
    decide (c.pull_request_review_id = some review_id)).length : Int)

/-- The review loop of `process_pr` (backfill.rs lines 231-300), restricted to
its XP effect: reviews without a user or without a submission time are
skipped; each remaining review awards `calculate_review_xp(db_pr, submitted_at,
comments_count)` to its reviewer (the review upsert is `ON CONFLICT DO
UPDATE`, so the insert succeeds and the award happens for every such review).
Returns the `(reviewer user id, xp)` pairs in order. -/
def process_reviews_awards (db_pr : PullRequest) (comments : List GithubReviewComment) :
    List GithubReview → List (Nat × Int)
  | [] => []
  | rv :: rest =>
    match rv.user, rv.submitted_at with
    | some u, some t =>
      (u, calculate_review_xp db_pr t (comment_count_for comments rv.id)) ::
        process_reviews_awards db_pr comments rest
    | _, _ => process_reviews_awards db_pr comments rest

/-- The error mapping of `process_pr` (backfill.rs lines 192-217): a
rate-limited reviews fetch or comments fetch aborts with
`BackfillError::RateLimited`; any other reviews-fetch failure returns
`Ok` with no reviews processed; any other comments-fetch failure proceeds
with an empty comment list. The payload is the award list of the review loop. -/
def process_pr_run (db_pr : PullRequest)
    (reviews_fetch : Except ClientError (List GithubReview))
    (comments_fetch : Except ClientError (List GithubReviewComment)) :
    Except BackfillError (List (Nat × Int)) :=
  match reviews_fetch with
  | .error (.RateLimited retry_after) => .error (.RateLimited retry_after)
  | .error _ => .ok []
  | .ok reviews =>
    match comments_fetch with
    | .error (.RateLimited retry_after) => .error (.RateLimited retry_after)
    | .error _ => .ok (process_reviews_awards db_pr [] reviews)
    | .ok comments => .ok (process_reviews_awards db_pr comments reviews)

/-! ### Recalculation job (processor/src/recalculate.rs) -/

/-- `RecalculationStats` (recalculate.rs lines 137-143). -/
structure RecalculationStats where
  total_reviews : Nat
  total_sessions : Nat
  total_xp_awarded : Int
  users_updated : Nat
deriving DecidableEq, Inhabited

/-- The persisted state `recalculate_all_xp` reads and writes: user XP rows,
review rows, commit rows, the per-(PR, reviewer) quality aggregates, and the
per-review `xp_earned` column. User `level` is a derived function of `xp`
(`FLOOR(SQRT(xp / 100.0)) + 1`) and is not tracked separately. -/
structure RecalcState where
  users : List (Nat × Int)
  reviews : List Review
  commits : List Commit
  quality : List ((Nat × Nat) × CommentQualityData)
  xp_earned : List (Nat × Int)
deriving Inhabited

/-- Step 1 of `recalculate_all_xp`: `UPDATE users SET xp = 0, level = 1`. -/
def reset_users (us : List (Nat × Int)) : List (Nat × Int) :=
  us.map fun u => (u.1, (0 : Int))

/-- `db::users::add_xp` (db/src/users.rs lines 107-122), restricted to the xp
column; `level` is derived from the updated xp. -/
def add_xp (us : List (Nat × Int)) (user_id : Nat) (amount : Int) : List (Nat × Int) :=
  us.map fun u => if u.1 = user_id then (u.1, u.2 + amount) else u

/-- HashSet-insert used for `users_updated` (recalculate.rs line 97), modelled
as an ordered duplicate-free list. -/
def insert_unique (l : List Nat) (x : Nat) : List Nat :=
  if x ∈ l then l else l ++ [x]

/-- `UPDATE reviews SET xp_earned = $1 WHERE id = $2` (recalculate.rs lines
101-105). -/
def set_xp_earned (xs : List (Nat × Int)) (review_id : Nat) (amount : Int) :
    List (Nat × Int) :=
  xs.map fun p => if p.1 = review_id then (p.1, amount) else p

/-- Grouping of step 3 (recalculate.rs lines 37-44): the `(pr_id, reviewer_id)`
keys in first-occurrence order (HashMap iteration order is unspecified in
Rust; every quantity derived from the groups below is a sum or a per-key
update, so the choice of order does not affect the results). -/
def group_keys (reviews : List Review) : List (Nat × Nat) :=
  reviews.foldl
    (fun ks r =>
      if (r.pr_id, r.reviewer_id) ∈ ks then ks else ks ++ [(r.pr_id, r.reviewer_id)]) []

/-- The reviews of one `(pr_id, reviewer_id)` group. -/
def group_of (reviews : List Review) (k : Nat × Nat) : List Review :=
  reviews.filter fun r => decide (r.pr_id = k.1) && decide (r.reviewer_id = k.2)

/-- `get_quality_data_for_pr_user(...).ok()` (recalculate.rs lines 68-71):
the persisted aggregate for the key, absent on lookup failure. -/
def lookup_quality (table : List ((Nat × Nat) × CommentQualityData)) (k : Nat × Nat) :
    Option CommentQualityData :=
  (table.find? fun e => decide (e.1 = k)).map (·.2)

/-- The most recent commit before the session (recalculate.rs lines 84-88). -/
def commit_before_session (pr_commits : List Commit) (session : ReviewSession) :
    Option Int :=
  ((pr_commits.filter fun c => decide (c.committed_at < session.started_at)).map
    (·.committed_at)).max?

/-- Accumulator of the recalculation loops: users being updated, the
`xp_earned` column, and the running totals. -/
structure RecalcAcc where
  users : List (Nat × Int)
  xp_earned : List (Nat × Int)
  total_xp : Int
  total_sessions : Nat
  updated : List Nat
deriving Inhabited

/-- The per-session body of step 4 (recalculate.rs lines 82-108): positive
session XP is added to the reviewer, counted into `total_xp_awarded`, flagged
in `users_updated`, and recorded on the session's first review; zero (or
negative) XP is skipped entirely. -/
def apply_session (pr_commits : List Commit) (quality : Option CommentQualityData)
    (reviewer_id : Nat) (acc : RecalcAcc) (session : ReviewSession) : RecalcAcc :=
  let commit_before := commit_before_session pr_commits session
  let xp := calculate_session_xp_with_quality session commit_before quality
  if 0 < xp then
    { acc with
        users := add_xp acc.users reviewer_id xp
        total_xp := acc.total_xp + xp
        updated := insert_unique acc.updated reviewer_id
        xp_earned :=
          match session.reviews.head? with
          | some first => set_xp_earned acc.xp_earned first.id xp
          | none => acc.xp_earned }
  else acc

/-- The per-group body of step 4 (recalculate.rs lines 59-109): rebuild the
group's sessions from the persisted reviews and the PR's commits, look up the
group's quality aggregate, and score every session. -/
def apply_group (reviews : List Review) (commits : List Commit)
    (quality_table : List ((Nat × Nat) × CommentQualityData))
    (acc : RecalcAcc) (k : Nat × Nat) : RecalcAcc :=
  let grp := group_of reviews k
  let pr_commits := commits.filter fun c => decide (c.pr_id = k.1)
  let quality := lookup_quality quality_table k
  let sessions := group_reviews_into_sessions grp pr_commits
  sessions.foldl (apply_session pr_commits quality k.2)
    { acc with total_sessions := acc.total_sessions + sessions.length }

/-- `recalculate_all_xp` (recalculate.rs lines 10-135): reset every user's xp
and every review's `xp_earned` to zero, then rebuild sessions and scores from
the persisted reviews, commits and quality aggregates alone. -/
def recalculate_all_xp (st : RecalcState) : RecalculationStats × RecalcState :=
  let us0 := reset_users st.users
  let xp0 : List (Nat × Int) := st.reviews.map fun r => (r.id, 0)
  let keys := group_keys st.reviews
  let acc0 : RecalcAcc :=
    { users := us0, xp_earned := xp0, total_xp := 0, total_sessions := 0, updated := [] }
  let final := keys.foldl (apply_group st.reviews st.commits st.quality) acc0
  let stats : RecalculationStats :=
    { total_reviews := (keys.map fun k => (group_of st.reviews k).length).sum
      total_sessions := final.total_sessions
      total_xp_awarded := final.total_xp
      users_updated := final.updated.length }
  (stats, { st with users := final.users, xp_earned := final.xp_earned })

/-! ### Generic helper lemmas -/

theorem foldl_invariant {α β : Type} (P : α → Prop) (f : α → β → α) :
    ∀ (l : List β) (init : α), P init → (∀ a b, P a → P (f a b)) → P (l.foldl f init) := by
  intro l
  induction l with
  | nil => intro init h0 _; exact h0
  | cons x xs ih => intro init h0 hstep; exact ih _ (hstep _ _ h0) hstep

/-! ### Score calculator: closed forms -/

/-- The fast-review bonus as a standalone quantity: +10 when a prior commit
time is supplied and the session started within the hour after it. -/
def fast_bonus (started_at : Int) (cb : Option Int) : Int :=
  match cb with
  | some commit_time =>
    if started_at - commit_time < 3600 ∧ 0 < started_at - commit_time then 10 else 0
  | none => 0

theorem fast_bonus_nonneg (started_at : Int) (cb : Option Int) :
    0 ≤ fast_bonus started_at cb := by
  rcases cb with _ | t
  · simp [fast_bonus]
  · simp only [fast_bonus]; split_ifs <;> omega

/-- Closed form of `calculate_session_xp`: the two rejection tests, then the
flat sum of base, per-comment XP and the fast/thorough/deep bonuses. -/
theorem calculate_session_xp_eq (s : ReviewSession) (cb : Option Int) :
    calculate_session_xp s cb =
      if s.total_comments = 0 ∧ ¬ has_state_change s then 0
      else if has_state_change s ∧ s.total_comments = 0 ∧
          s.ended_at - s.started_at < 60 then 0
      else 10 + s.total_comments * 5
        + fast_bonus s.started_at cb
        + (if 5 < s.total_comments then 5 else 0)
        + (if 10 < s.total_comments then 10 else 0) := by
  rcases cb with _ | t <;> simp only [calculate_session_xp, fast_bonus] <;>
    split_ifs <;> ring

/-- Closed form of `calculate_session_xp_with_quality` when quality data is
supplied. -/
theorem calculate_session_xp_with_quality_eq (s : ReviewSession) (cb : Option Int)
    (q : CommentQualityData) :
    calculate_session_xp_with_quality s cb (some q) =
      if s.total_comments = 0 ∧ ¬ has_state_change s then 0
      else if has_state_change s ∧ s.total_comments = 0 ∧
          s.ended_at - s.started_at < 60 then 0
      else 10 + 2 * q.by_tier.1 + 5 * q.by_tier.2.1 + 8 * q.by_tier.2.2
        + 5 * (s.total_comments - q.categorized_count)
        + 3 * q.by_category.1 + 2 * q.by_category.2.1
        + fast_bonus s.started_at cb
        + (if 5 < s.total_comments then 5 else 0)
        + (if 10 < s.total_comments then 10 else 0) := by
  rcases cb with _ | t <;>
    simp only [calculate_session_xp_with_quality, fast_bonus] <;>
    split_ifs <;> ring

/-- C2: for every session that is not rejected and whose quality aggregates
are supplied, the score equals base 10 plus 2 per low-tier, 5 per medium-tier
and 8 per high-tier comment, 5 per still-uncategorized comment
(total_comments − categorized_count), 3 per logic-category and 2 per
structural-category comment, plus the thorough (+5 for >5 comments), deep
(+10 for >10 comments) and fast-review (+10 for 0 < started_at − prior commit
< 1h) bonuses. -/
theorem session_xp_with_quality_formula (s : ReviewSession) (cb : Option Int)
    (q : CommentQualityData)
    (h1 : ¬ (s.total_comments = 0 ∧ ¬ has_state_change s))
    (h2 : ¬ (has_state_change s ∧ s.total_comments = 0 ∧
      s.ended_at - s.started_at < 60)) :
    calculate_session_xp_with_quality s cb (some q) =
      10 + 2 * q.by_tier.1 + 5 * q.by_tier.2.1 + 8 * q.by_tier.2.2
        + 5 * (s.total_comments - q.categorized_count)
        + 3 * q.by_category.1 + 2 * q.by_category.2.1
        + fast_bonus s.started_at cb
        + (if 5 < s.total_comments then 5 else 0)
        + (if 10 < s.total_comments then 10 else 0) := by
  rw [calculate_session_xp_with_quality_eq, if_neg h1, if_neg h2]

/-- Witness for C2: the mixed-quality 8-comment session of
`test_xp_quality_weighted_mixed` scores 61. -/
theorem session_xp_with_quality_formula_witness :
    calculate_session_xp_with_quality
        ⟨1, 2, [mk_review 1 2 0 ReviewState.ChangesRequested 8], 0, 1800, 8⟩ none
        (some ⟨(2, 3, 3), (1, 0, 7), 8⟩) = 61 :=
  (session_xp_with_quality_formula _ none _ (by decide) (by decide)).trans (by decide)

/-- C7: the score is 0 exactly when the session has zero comments and either
no approved/changes-requested state change is present, or one is present and
the session lasted under 60 seconds. (Comment counts are tallies of fetched
comment rows, hence non-negative.) -/
theorem session_xp_zero_iff (s : ReviewSession) (cb : Option Int)
    (hc : 0 ≤ s.total_comments) :
    calculate_session_xp s cb = 0 ↔
      s.total_comments = 0 ∧
        (¬ has_state_change s ∨
          (has_state_change s ∧ s.ended_at - s.started_at < 60)) := by
  have hfb := fast_bonus_nonneg s.started_at cb
  rw [calculate_session_xp_eq]
  by_cases ha : s.total_comments = 0 ∧ ¬ has_state_change s
  · rw [if_pos ha]; simp [ha.1, ha.2]
  · rw [if_neg ha]
    by_cases hb : has_state_change s ∧ s.total_comments = 0 ∧
        s.ended_at - s.started_at < 60
    · rw [if_pos hb]; simp [hb.1, hb.2.1, hb.2.2]
    · rw [if_neg hb]
      constructor
      · intro h; exfalso; split_ifs at h <;> omega
      · intro h; exfalso
        rcases h with ⟨h0, hcase | ⟨hsc, hd⟩⟩
        · exact ha ⟨h0, hcase⟩
        · exact hb ⟨hsc, h0, hd⟩

/-- Witness for C7 (Scenario A): a 0-comment Approved session lasting 30s
scores 0, and the same session lasting 61s scores 10. -/
theorem session_xp_zero_iff_witness :
    calculate_session_xp
        ⟨1, 2, [mk_review 1 2 0 ReviewState.Approved 0], 0, 30, 0⟩ none = 0 ∧
    calculate_session_xp
        ⟨1, 2, [mk_review 1 2 0 ReviewState.Approved 0], 0, 61, 0⟩ none = 10 :=
  ⟨(session_xp_zero_iff _ none (by decide)).mpr (by decide), by decide⟩

/-- C8: for every session that is not rejected and has no quality data, the
score is 10 + 5 per comment (uncapped), plus 5 if more than 5 comments, plus
10 if more than 10 comments, plus 10 if a prior commit time is supplied with
0 < started_at − prior_commit_time < 1 hour. -/
theorem session_xp_no_quality_formula (s : ReviewSession) (cb : Option Int)
    (h1 : ¬ (s.total_comments = 0 ∧ ¬ has_state_change s))
    (h2 : ¬ (has_state_change s ∧ s.total_comments = 0 ∧
      s.ended_at - s.started_at < 60)) :
    calculate_session_xp s cb =
      10 + s.total_comments * 5
        + (if 5 < s.total_comments then 5 else 0)
        + (if 10 < s.total_comments then 10 else 0)
        + fast_bonus s.started_at cb := by
  rw [calculate_session_xp_eq, if_neg h1, if_neg h2]
  ring

/-- Witness for C8 (Scenarios B and C): a 7-comment session with no quality
data scores 50, a 12-comment session scores 85. -/
theorem session_xp_no_quality_formula_witness :
    calculate_session_xp
        ⟨1, 2, [mk_review 1 2 0 ReviewState.ChangesRequested 7], 0, 1800, 7⟩ none = 50 ∧
    calculate_session_xp
        ⟨1, 2, [mk_review 1 2 0 ReviewState.ChangesRequested 12], 0, 3600, 12⟩ none = 85 :=
  ⟨(session_xp_no_quality_formula _ none (by decide) (by decide)).trans (by decide),
   (session_xp_no_quality_formula _ none (by decide) (by decide)).trans (by decide)⟩

/-! ### Pagination (C3) -/

theorem fetch_pages_count_le (pages : List (List GithubPr)) (cutoff : Int) :
    ∀ (fuel page : Nat), (fetch_pages pages cutoff fuel page).2 ≤ fuel := by
  intro fuel
  induction fuel with
  | zero => intro page; simp [fetch_pages]
  | succ n ih =>
    intro page
    simp only [fetch_pages]
    split_ifs
    · simp
    · simp
    · simp
    · simpa using Nat.succ_le_succ (ih (page + 1))

theorem fetch_pages_cutoff_le (pages : List (List GithubPr)) (cutoff : Int) :
    ∀ (fuel page : Nat) (p : GithubPr),
      p ∈ (fetch_pages pages cutoff fuel page).1 → cutoff ≤ p.updated_at := by
  intro fuel
  induction fuel with
  | zero => intro page p hp; simp [fetch_pages] at hp
  | succ n ih =>
    intro page p hp
    simp only [fetch_pages] at hp
    have hkept : ∀ q ∈ (page_fetch pages page).takeWhile
        (fun x => decide (cutoff ≤ x.updated_at)), cutoff ≤ q.updated_at := by
      intro q hq
      simpa using List.mem_takeWhile_imp hq
    split_ifs at hp
    · simp at hp
    · exact hkept p hp
    · exact hkept p hp
    · rcases List.mem_append.mp hp with h1 | h2
      · exact hkept p h1
      · exact ih (page + 1) p h2

theorem fetch_pages_stops_on_old_page (pages : List (List GithubPr)) (cutoff : Int)
    (fuel page : Nat) (hfuel : 0 < fuel) (hne : page_fetch pages page ≠ [])
    (hold : ∀ p ∈ page_fetch pages page, p.updated_at < cutoff) :
    (fetch_pages pages cutoff fuel page).2 = 1 := by
  rcases fuel with _ | n
  · omega
  rcases hprs : page_fetch pages page with _ | ⟨q, qs⟩
  · exact absurd hprs hne
  have hq : q.updated_at < cutoff := hold q (by rw [hprs]; exact List.mem_cons_self q qs)
  simp only [fetch_pages, hprs]
  have htake : (q :: qs).takeWhile (fun x => decide (cutoff ≤ x.updated_at)) = [] := by
    simp [List.takeWhile_cons, decide_eq_true_iff]
    omega
  rw [if_neg (by simp), htake]
  simp

/-- C3 (amended): pagination issues at most 50 page fetches; every returned PR
has `updated_at` at or after the cutoff, where the cutoff is the cursor when
one exists and otherwise `now − max_age_days` (NOT the max of the two); and as
soon as a fetched page is entirely older than the cutoff, pagination stops
with that fetch. -/
theorem fetch_prs_pagination_amended (pages : List (List GithubPr))
    (since : Option Int) (now max_age_days : Int) :
    (fetch_prs_since pages since now max_age_days).2 ≤ 50 ∧
    (∀ p ∈ (fetch_prs_since pages since now max_age_days).1,
      since.getD (now - max_age_days * 86400) ≤ p.updated_at) ∧
    (∀ (cutoff : Int) (fuel page : Nat), 0 < fuel → page_fetch pages page ≠ [] →
      (∀ p ∈ page_fetch pages page, p.updated_at < cutoff) →
      (fetch_pages pages cutoff fuel page).2 = 1) :=
  ⟨fetch_pages_count_le pages _ 50 1,
   fun p hp => fetch_pages_cutoff_le pages _ 50 1 p hp,
   fun cutoff fuel page h1 h2 h3 =>
     fetch_pages_stops_on_old_page pages cutoff fuel page h1 h2 h3⟩

/-- Witness for C3 (amended): a two-page listing where the second page is
older than the cutoff — one PR returned, two fetches, and the stop lemma
applies to the old page. -/
theorem fetch_prs_pagination_amended_witness :
    ((fetch_prs_since [[⟨1, 1, "open", 0, 500, none, none⟩],
        [⟨2, 2, "open", 0, 50, none, none⟩]] (some 100) 1000 1).2 ≤ 50 ∧
      (∀ p ∈ (fetch_prs_since [[⟨1, 1, "open", 0, 500, none, none⟩],
          [⟨2, 2, "open", 0, 50, none, none⟩]] (some 100) 1000 1).1,
        (some (100 : Int)).getD (1000 - 1 * 86400) ≤ p.updated_at) ∧
      (∀ (cutoff : Int) (fuel page : Nat), 0 < fuel →
        page_fetch [[⟨1, 1, "open", 0, 500, none, none⟩],
          [⟨2, 2, "open", 0, 50, none, none⟩]] page ≠ [] →
        (∀ p ∈ page_fetch [[⟨1, 1, "open", 0, 500, none, none⟩],
          [⟨2, 2, "open", 0, 50, none, none⟩]] page, p.updated_at < cutoff) →
        (fetch_pages [[⟨1, 1, "open", 0, 500, none, none⟩],
          [⟨2, 2, "open", 0, 50, none, none⟩]] cutoff fuel page).2 = 1)) ∧
    (fetch_prs_since [[⟨1, 1, "open", 0, 500, none, none⟩],
        [⟨2, 2, "open", 0, 50, none, none⟩]] (some 100) 1000 1).1 =
      [⟨1, 1, "open", 0, 500, none, none⟩] :=
  ⟨fetch_prs_pagination_amended _ (some 100) 1000 1, by decide⟩

/-- C3 counterexample: with a cursor of 0 and `now − max_age_days·86400 =
432000`, the claimed cutoff `max(cursor, now − max_age_days)` would exclude a
PR updated at 100, but `fetch_prs_since` uses the cursor alone and returns it. -/
theorem fetch_prs_cutoff_counterexample :
    (fetch_prs_since [[⟨1, 1, "open", 0, 100, none, none⟩]] (some 0) 864000 5).1 =
      [⟨1, 1, "open", 0, 100, none, none⟩] ∧
    (100 : Int) < 864000 - 5 * 86400 := by
  constructor
  · decide
  · decide

/-! ### Rate-limit flow (C4) -/

theorem backfill_loop_rate_limited (sync_start : Int)
    (process : GithubPr → Except BackfillError (Nat × Nat)) :
    ∀ (pre : List GithubPr) (p : GithubPr) (post : List GithubPr) (r : Nat),
      (∀ q ∈ pre, ∀ s, process q ≠ .error (.RateLimited s)) →
      process p = .error (.RateLimited r) →
      ∀ prog, backfill_loop sync_start process (pre ++ p :: post) prog =
        (.error (.RateLimited r), some sync_start) := by
  intro pre
  induction pre with
  | nil =>
    intro p post r _ hp prog
    simp only [List.nil_append, backfill_loop, hp]
  | cons q qs ih =>
    intro p post r hpre hp prog
    have hq := hpre q (List.mem_cons_self q qs)
    have hqs : ∀ x ∈ qs, ∀ s, process x ≠ .error (.RateLimited s) :=
      fun x hx => hpre x (List.mem_cons_of_mem q hx)
    simp only [List.cons_append, backfill_loop]
    rcases hqv : process q with e | v
    · rcases e with ce | _ | s
      · exact ih p post r hqs hp _
      · exact ih p post r hqs hp _
      · exact absurd hqv (hq s)
    · rcases v with ⟨rc, nu⟩
      exact ih p post r hqs hp _

/-- C4 (amended): a rate-limit signalled while processing a PR (on the per-PR
reviews fetch or comments fetch) aborts the remaining PRs, persists the cursor
as `sync_start`, and surfaces the distinguished `RateLimited` error; but a
rate-limit on the initial PR-list fetch (or the repo lookup) propagates as a
generic `GitHub` client error and does NOT persist the cursor. -/
theorem backfill_rate_limit_amended :
    (∀ (cursor0 : Option Int) (sync_start : Int)
        (process : GithubPr → Except BackfillError (Nat × Nat))
        (pre : List GithubPr) (p : GithubPr) (post : List GithubPr) (r : Nat),
      (∀ q ∈ pre, ∀ s, process q ≠ .error (.RateLimited s)) →
      process p = .error (.RateLimited r) →
      backfill_repo_run cursor0 sync_start (.ok ()) (.ok (pre ++ p :: post)) process =
        (.error (.RateLimited r), some sync_start)) ∧
    (∀ (db_pr : PullRequest) (r : Nat)
        (cf : Except ClientError (List GithubReviewComment)),
      process_pr_run db_pr (.error (.RateLimited r)) cf = .error (.RateLimited r)) ∧
    (∀ (db_pr : PullRequest) (r : Nat) (rvs : List GithubReview),
      process_pr_run db_pr (.ok rvs) (.error (.RateLimited r)) =
        .error (.RateLimited r)) ∧
    (∀ (cursor0 : Option Int) (sync_start : Int)
        (process : GithubPr → Except BackfillError (Nat × Nat)) (e : ClientError),
      backfill_repo_run cursor0 sync_start (.ok ()) (.error e) process =
        (.error (.GitHub e), cursor0)) := by
  refine ⟨?_, ?_, ?_, ?_⟩
  · intro cursor0 sync_start process pre p post r hpre hp
    simp only [backfill_repo_run]
    exact backfill_loop_rate_limited sync_start process pre p post r hpre hp _
  · intro db_pr r cf; rfl
  · intro db_pr r rvs; rfl
  · intro cursor0 sync_start process e; rfl

/-- Witness for C4 (amended): one processed PR hits a rate limit of 30s after
a successfully processed PR; the run aborts with `RateLimited 30` and the
cursor is persisted as `sync_start = 77`. -/
theorem backfill_rate_limit_amended_witness :
    backfill_repo_run (some 5) 77 (.ok ())
        (.ok ([⟨1, 1, "open", 0, 10, none, none⟩] ++
          ⟨2, 2, "open", 0, 20, none, none⟩ :: []))
        (fun pr => if pr.id = 1 then .ok (3, 1) else .error (.RateLimited 30)) =
      (.error (.RateLimited 30), some 77) :=
  backfill_rate_limit_amended.1 (some 5) 77 _ [⟨1, 1, "open", 0, 10, none, none⟩]
    ⟨2, 2, "open", 0, 20, none, none⟩ [] 30
    (by intro q hq s; simp at hq; subst hq; simp) (by simp)

/-- C4 counterexample: a rate-limited initial PR-list fetch surfaces
`BackfillError.GitHub (ClientError.RateLimited 60)` — not the distinguished
`BackfillError.RateLimited` — and leaves the stored cursor at its old value
instead of persisting `sync_start = 99`. -/
theorem backfill_rate_limit_counterexample :
    backfill_repo_run (some 5) 99 (.ok ()) (.error (.RateLimited 60))
        (fun _ => .ok (0, 0)) =
      (.error (.GitHub (.RateLimited 60)), some 5) ∧
    (Except.error (BackfillError.GitHub (ClientError.RateLimited 60)) :
        Except BackfillError BackfillProgress) ≠
      Except.error (BackfillError.RateLimited 60) ∧
    (some (5 : Int)) ≠ some (99 : Int) := by
  refine ⟨rfl, ?_, by simp⟩
  intro h
  simp at h

/-! ### Online award formula (C1) -/

/-- C1 (amended): during a sync run the XP awarded online for each fetched
review with a user and a submission time is the per-review amount
`calculate_review_xp(db_pr, submitted_at, count of fetched comments attached
to that review)`; reviews without a user or submission time award nothing.
The online path never builds sessions, so this differs in general from the
offline session-based rescoring (see the counterexample). -/
theorem online_award_is_per_review_formula (db_pr : PullRequest)
    (comments : List GithubReviewComment) (reviews : List GithubReview) :
    process_reviews_awards db_pr comments reviews =
      reviews.filterMap fun rv =>
        match rv.user, rv.submitted_at with
        | some u, some t =>
          some (u, calculate_review_xp db_pr t (comment_count_for comments rv.id))
        | _, _ => none := by
  induction reviews with
  | nil => rfl
  | cons rv rest ih =>
    rcases hu : rv.user with _ | u <;> rcases ht : rv.submitted_at with _ | t <;>
      simp only [process_reviews_awards, List.filterMap_cons, hu, ht, ih]

/-- C1 counterexample: one fetched review with 11 attached comments, submitted
100000s after PR creation, PR with no recorded first review. The online path
awards `calculate_review_xp = 10 + 15 + min(55, 50) = 75`; the session-based
rescoring of the same persisted review row yields `10 + 55 + 5 + 10 = 80`. -/
theorem online_award_differs_from_session_rescore :
    process_reviews_awards
        ⟨1, 1, 10, 1, "t", 3, PrState.Open, 0, none, none, none⟩
        ((List.range 11).map fun i => ⟨(i : Int), some 5⟩)
        [⟨5, some 7, "commented", some 100000⟩] = [(7, 75)] ∧
    ((group_reviews_into_sessions
        [⟨0, 1, 7, 5, ReviewState.Commented, none, 11, 100000⟩] []).map
      fun s => calculate_session_xp_with_quality s none
        (some ⟨(0, 0, 0), (0, 0, 0), 0⟩)).sum = 80 ∧
    (75 : Int) ≠ 80 := by
  refine ⟨by decide, by decide, by decide⟩

/-! ### Session builder: structural lemmas (C5, C6) -/

/-- The session-boundary condition between two consecutive events: a gap of
more than 24 hours, or a commit of the later event's PR strictly between the
two submission times (open interval). -/
def splits_session (commits : List Commit) (a b : Review) : Prop :=
  86400 < b.submitted_at - a.submitted_at ∨
    ∃ c ∈ commits, c.pr_id = b.pr_id ∧ a.submitted_at < c.committed_at ∧
      c.committed_at < b.submitted_at

theorem commits_between_iff (commits : List Commit) (pr_id : Nat) (lo hi : Int) :
    commits_between commits pr_id lo hi = true ↔
      ∃ c ∈ commits, c.pr_id = pr_id ∧ lo < c.committed_at ∧ c.committed_at < hi := by
  simp [commits_between, List.any_eq_true, and_assoc]

theorem should_start_new_session_iff (commits : List Commit) (t : Int) (b : Review) :
    should_start_new_session commits (some t) b = true ↔
      86400 < b.submitted_at - t ∨
        ∃ c ∈ commits, c.pr_id = b.pr_id ∧ t < c.committed_at ∧
          c.committed_at < b.submitted_at := by
  simp only [should_start_new_session]
  split_ifs with h
  · simp [h]
  · simp [h, commits_between_iff]

theorem splits_session_perm (commits : List Commit) (a b : Review) :
    splits_session (commits.insertionSort commitLe) a b ↔ splits_session commits a b := by
  unfold splits_session
  constructor <;> rintro (h | ⟨c, hc, h1, h2, h3⟩)
  · exact Or.inl h
  · exact Or.inr ⟨c, (List.perm_insertionSort commitLe commits).mem_iff.mp hc, h1, h2, h3⟩
  · exact Or.inl h
  · exact Or.inr ⟨c, (List.perm_insertionSort commitLe commits).mem_iff.mpr hc, h1, h2, h3⟩

theorem splits_session_lt (commits : List Commit) (a b : Review)
    (h : splits_session commits a b) : a.submitted_at < b.submitted_at := by
  rcases h with h | ⟨c, _, _, h1, h2⟩ <;> omega

theorem session_loop_flatten (commits : List Commit) :
    ∀ (rest cur : List Review) (last : Option Int),
      (session_loop commits rest cur last).flatten = cur ++ rest := by
  intro rest
  induction rest with
  | nil =>
    intro cur last
    simp only [session_loop]
    split_ifs with h
    · simp [List.isEmpty_iff.mp h]
    · simp
  | cons r rs ih =>
    intro cur last
    simp only [session_loop]
    split_ifs with h
    · simp [ih]
    · simp [ih]

theorem session_loop_ne_nil (commits : List Commit) :
    ∀ (rest cur : List Review) (last : Option Int),
      ∀ g ∈ session_loop commits rest cur last, g ≠ [] := by
  intro rest
  induction rest with
  | nil =>
    intro cur last g hg
    simp only [session_loop] at hg
    split_ifs at hg with h
    · simp at hg
    · simp only [List.mem_singleton] at hg
      subst hg
      exact fun hnil => by simp [hnil] at h
  | cons r rs ih =>
    intro cur last g hg
    simp only [session_loop] at hg
    split_ifs at hg with h
    · rcases List.mem_cons.mp hg with rfl | hg2
      · intro hnil
        rw [hnil] at h
        simp at h
      · exact ih [r] _ g hg2
    · exact ih (cur ++ [r]) _ g hg

theorem session_loop_head (commits : List Commit) :
    ∀ (rest cur : List Review) (last : Option Int), cur ≠ [] →
      ∃ g gs, session_loop commits rest cur last = g :: gs ∧ g.head? = cur.head? := by
  intro rest
  induction rest with
  | nil =>
    intro cur last hcur
    refine ⟨cur, [], ?_, rfl⟩
    simp only [session_loop]
    rw [if_neg (by simpa [List.isEmpty_iff] using hcur)]
  | cons r rs ih =>
    intro cur last hcur
    simp only [session_loop]
    split_ifs with h
    · exact ⟨cur, _, rfl, rfl⟩
    · obtain ⟨g, gs, heq, hhead⟩ := ih (cur ++ [r]) (some r.submitted_at) (by simp)
      refine ⟨g, gs, heq, ?_⟩
      rw [hhead]
      rcases cur with _ | ⟨x, xs⟩
      · exact absurd rfl hcur
      · simp

theorem session_loop_chain_within (commits : List Commit) :
    ∀ (rest cur : List Review) (last : Option Int),
      last = cur.getLast?.map (·.submitted_at) →
      List.Chain' (fun a b => ¬ splits_session commits a b) cur →
      ∀ g ∈ session_loop commits rest cur last,
        List.Chain' (fun a b => ¬ splits_session commits a b) g := by
  intro rest
  induction rest with
  | nil =>
    intro cur last hinv hchain g hg
    simp only [session_loop] at hg
    split_ifs at hg with h
    · simp at hg
    · simp only [List.mem_singleton] at hg
      subst hg
      exact hchain
  | cons r rs ih =>
    intro cur last hinv hchain g hg
    simp only [session_loop] at hg
    split_ifs at hg with h
    · rcases List.mem_cons.mp hg with rfl | hg2
      · exact hchain
      · exact ih [r] (some r.submitted_at) (by simp) (List.chain'_singleton r) g hg2
    · refine ih (cur ++ [r]) (some r.submitted_at) (by simp) ?_ g hg
      rw [List.chain'_append]
      refine ⟨hchain, List.chain'_singleton r, ?_⟩
      intro x hx y hy
      simp only [List.head?_cons, Option.mem_some_iff] at hy
      subst hy
      intro hsplit
      apply h
      have hcur : cur ≠ [] := by
        intro hnil
        rw [hnil] at hx
        simp at hx
      have hlast : last = some x.submitted_at := by
        rw [hinv]
        simp only [Option.mem_def] at hx
        rw [hx]
        rfl
      rw [hlast]
      rw [(should_start_new_session_iff commits x.submitted_at r).mpr hsplit]
      simpa [List.isEmpty_iff] using hcur

theorem session_loop_chain_boundary (commits : List Commit) :
    ∀ (rest cur : List Review) (last : Option Int),
      last = cur.getLast?.map (·.submitted_at) →
      List.Chain'
        (fun g₁ g₂ => ∀ a ∈ g₁.getLast?, ∀ b ∈ g₂.head?, splits_session commits a b)
        (session_loop commits rest cur last) := by
  intro rest
  induction rest with
  | nil =>
    intro cur last _
    simp only [session_loop]
    split_ifs
    · exact List.chain'_nil
    · exact List.chain'_singleton _
  | cons r rs ih =>
    intro cur last hinv
    simp only [session_loop]
    split_ifs with h
    · rw [List.chain'_cons']
      refine ⟨?_, ih [r] (some r.submitted_at) (by simp)⟩
      intro g hg a ha b hb
      obtain ⟨g0, gs0, heq, hhead⟩ :=
        session_loop_head commits rs [r] (some r.submitted_at) (by simp)
      rw [heq] at hg
      simp only [List.head?_cons, Option.mem_some_iff] at hg
      subst hg
      rw [hhead] at hb
      simp only [List.head?_cons, Option.mem_some_iff] at hb
      subst hb
      simp only [Bool.and_eq_true] at h
      have hand := h
      have hlast : last = some a.submitted_at := by
        rw [hinv]
        simp only [Option.mem_def] at ha
        rw [ha]
        rfl
      rw [hlast] at hand
      exact (should_start_new_session_iff commits a.submitted_at r).mp hand.1
    · exact ih (cur ++ [r]) (some r.submitted_at) (by simp)

theorem filterMap_finalize_reviews :
    ∀ groups : List (List Review), (∀ g ∈ groups, g ≠ []) →
      (groups.filterMap finalize_session).map (·.reviews) = groups := by
  intro groups
  induction groups with
  | nil => intro _; rfl
  | cons g gs ih =>
    intro h
    rcases g with _ | ⟨r, rs⟩
    · exact absurd rfl (h [] (List.mem_cons_self _ _))
    · simp only [List.filterMap_cons, finalize_session, List.map_cons]
      rw [ih (fun x hx => h x (List.mem_cons_of_mem _ hx))]

/-- C5: for every sorted input event sequence, the produced groups concatenate
back to the input, no two consecutive events inside one session satisfy the
boundary condition (>24h gap or commit strictly between, open interval), and
the last event of each session and the first of the next always satisfy it —
i.e. consecutive events land in different sessions iff the boundary condition
holds between them. -/
theorem session_split_iff (reviews : List Review) (commits : List Commit)
    (hsorted : List.Sorted reviewLe reviews) :
    ((group_reviews_into_sessions reviews commits).map (·.reviews)).flatten = reviews ∧
    (∀ g ∈ (group_reviews_into_sessions reviews commits).map (·.reviews),
      List.Chain' (fun a b => ¬ splits_session commits a b) g) ∧
    List.Chain'
      (fun g₁ g₂ => ∀ a ∈ g₁.getLast?, ∀ b ∈ g₂.head?, splits_session commits a b)
      ((group_reviews_into_sessions reviews commits).map (·.reviews)) := by
  by_cases hempty : reviews = []
  · subst hempty
    refine ⟨rfl, ?_, ?_⟩
    · intro g hg; simp [group_reviews_into_sessions] at hg
    · exact List.chain'_nil
  · have hmap : (group_reviews_into_sessions reviews commits).map (·.reviews) =
        session_loop (commits.insertionSort commitLe) reviews [] none := by
      rw [group_reviews_into_sessions,
        if_neg (by simpa [List.isEmpty_iff] using hempty),
        List.Sorted.insertionSort_eq hsorted]
      exact filterMap_finalize_reviews _ (session_loop_ne_nil _ _ _ _)
    refine ⟨?_, ?_, ?_⟩
    · rw [hmap, session_loop_flatten]
      rfl
    · intro g hg
      rw [hmap] at hg
      have hw := session_loop_chain_within (commits.insertionSort commitLe) reviews []
        none rfl List.chain'_nil g hg
      exact hw.imp fun a b hnot hsp => hnot ((splits_session_perm commits a b).mpr hsp)
    · rw [hmap]
      have hb := session_loop_chain_boundary (commits.insertionSort commitLe) reviews []
        none rfl
      exact hb.imp fun g₁ g₂ hall a ha b hbb =>
        (splits_session_perm commits a b).mp (hall a ha b hbb)

/-- Scenario D events: 17 events 10 minutes apart, then an 18th event with two
commits strictly between events 17 and 18. -/
def scenario_d_reviews : List Review :=
  ((List.range 17).map fun i =>
    mk_review 1 2 ((i : Int) * 600) ReviewState.Commented 1) ++
    [mk_review 1 2 20000 ReviewState.Commented 1]

/-- Scenario D commits: strictly after event 17 (at 9600) and before event 18
(at 20000). -/
def scenario_d_commits : List Commit := [mk_commit 1 15000, mk_commit 1 16000]

/-- Witness for C5 (Scenario D): the 18-event input is sorted, the theorem
applies, and the 18 events yield exactly 2 sessions of sizes 17 and 1. -/
theorem session_split_iff_witness :
    List.Sorted reviewLe scenario_d_reviews ∧
    ((group_reviews_into_sessions scenario_d_reviews scenario_d_commits).map
      (·.reviews)).flatten = scenario_d_reviews ∧
    (group_reviews_into_sessions scenario_d_reviews scenario_d_commits).map
      (fun s => s.reviews.length) = [17, 1] :=
  ⟨by decide, (session_split_iff scenario_d_reviews scenario_d_commits (by decide)).1,
   by decide⟩

theorem foldl_min_le (l : List Review) :
    ∀ a : Int, l.foldl (fun acc x => min acc x.submitted_at) a ≤ a ∧
      ∀ x ∈ l, l.foldl (fun acc x => min acc x.submitted_at) a ≤ x.submitted_at := by
  induction l with
  | nil => intro a; exact ⟨le_refl a, by simp⟩
  | cons y ys ih =>
    intro a
    refine ⟨le_trans (ih _).1 (min_le_left _ _), ?_⟩
    intro x hx
    rcases List.mem_cons.mp hx with rfl | hx2
    · exact le_trans (ih _).1 (min_le_right _ _)
    · exact (ih _).2 x hx2

theorem foldl_min_mem (l : List Review) :
    ∀ a : Int, l.foldl (fun acc x => min acc x.submitted_at) a = a ∨
      l.foldl (fun acc x => min acc x.submitted_at) a ∈ l.map (·.submitted_at) := by
  induction l with
  | nil => intro a; exact Or.inl rfl
  | cons y ys ih =>
    intro a
    rcases ih (min a y.submitted_at) with h | h
    · rcases le_total a y.submitted_at with hle | hle
      · exact Or.inl (by rw [List.foldl_cons, h, min_eq_left hle])
      · refine Or.inr ?_
        rw [List.foldl_cons, h, min_eq_right hle]
        simp
    · exact Or.inr (by simpa using Or.inr h)

theorem foldl_max_ge (l : List Review) :
    ∀ a : Int, a ≤ l.foldl (fun acc x => max acc x.submitted_at) a ∧
      ∀ x ∈ l, x.submitted_at ≤ l.foldl (fun acc x => max acc x.submitted_at) a := by
  induction l with
  | nil => intro a; exact ⟨le_refl a, by simp⟩
  | cons y ys ih =>
    intro a
    refine ⟨le_trans (le_max_left _ _) (ih _).1, ?_⟩
    intro x hx
    rcases List.mem_cons.mp hx with rfl | hx2
    · exact le_trans (le_max_right _ _) (ih _).1
    · exact (ih _).2 x hx2

theorem foldl_max_mem (l : List Review) :
    ∀ a : Int, l.foldl (fun acc x => max acc x.submitted_at) a = a ∨
      l.foldl (fun acc x => max acc x.submitted_at) a ∈ l.map (·.submitted_at) := by
  induction l with
  | nil => intro a; exact Or.inl rfl
  | cons y ys ih =>
    intro a
    rcases ih (max a y.submitted_at) with h | h
    · rcases le_total a y.submitted_at with hle | hle
      · refine Or.inr ?_
        rw [List.foldl_cons, h, max_eq_right hle]
        simp
      · exact Or.inl (by rw [List.foldl_cons, h, max_eq_left hle])
    · exact Or.inr (by simpa using Or.inr h)

theorem foldl_add_comments (l : List Review) :
    ∀ init : Int, l.foldl (fun a x => a + x.comments_count) init =
      init + (l.map (·.comments_count)).sum := by
  induction l with
  | nil => intro init; simp
  | cons y ys ih =>
    intro init
    rw [List.foldl_cons, ih, List.map_cons, List.sum_cons]
    ring

theorem finalize_session_spec (r : Review) (rs : List Review) (s : ReviewSession)
    (h : finalize_session (r :: rs) = some s) :
    s.reviews = r :: rs ∧
    (∀ x ∈ r :: rs, s.started_at ≤ x.submitted_at ∧ x.submitted_at ≤ s.ended_at) ∧
    s.started_at ∈ (r :: rs).map (·.submitted_at) ∧
    s.ended_at ∈ (r :: rs).map (·.submitted_at) ∧
    s.total_comments = ((r :: rs).map (·.comments_count)).sum := by
  simp only [finalize_session, Option.some.injEq] at h
  subst h
  refine ⟨rfl, ?_, ?_, ?_, ?_⟩
  · intro x hx
    rcases List.mem_cons.mp hx with rfl | hx2
    · exact ⟨(foldl_min_le rs _).1, (foldl_max_ge rs _).1⟩
    · exact ⟨(foldl_min_le rs _).2 x hx2, (foldl_max_ge rs _).2 x hx2⟩
  · rcases foldl_min_mem rs r.submitted_at with h | h
    · rw [h]; simp
    · simpa using Or.inr h
  · rcases foldl_max_mem rs r.submitted_at with h | h
    · rw [h]; simp
    · simpa using Or.inr h
  · rw [foldl_add_comments]
    simp

theorem exists_getLast {α : Type} : ∀ (l : List α), l ≠ [] → ∃ a, l.getLast? = some a := by
  intro l
  induction l with
  | nil => intro h; exact absurd rfl h
  | cons y ys ih =>
    intro _
    rcases ys with _ | ⟨z, zs⟩
    · exact ⟨y, rfl⟩
    · obtain ⟨a, ha⟩ := ih (by simp)
      exact ⟨a, by rw [List.getLast?_cons_cons]; exact ha⟩

theorem sorted_head_le (l : List Review) (hs : List.Sorted reviewLe l)
    (a : Review) (ha : l.head? = some a) :
    ∀ x ∈ l, a.submitted_at ≤ x.submitted_at := by
  rcases l with _ | ⟨y, ys⟩
  · simp at ha
  · simp only [List.head?_cons, Option.some.injEq] at ha
    subst ha
    intro x hx
    rcases List.mem_cons.mp hx with rfl | hx2
    · exact le_refl _
    · exact (List.pairwise_cons.mp hs).1 x hx2

theorem sorted_le_getLast :
    ∀ (l : List Review), List.Sorted reviewLe l →
      ∀ (a : Review), l.getLast? = some a →
        ∀ x ∈ l, x.submitted_at ≤ a.submitted_at := by
  intro l
  induction l with
  | nil => intro _ a ha; simp at ha
  | cons y ys ih =>
    intro hs a ha x hx
    rcases hys : ys with _ | ⟨z, zs⟩
    · subst hys
      simp only [List.getLast?_singleton, Option.some.injEq] at ha
      subst ha
      simp only [List.mem_singleton] at hx
      subst hx
      exact le_refl _
    · subst hys
      rw [List.getLast?_cons_cons] at ha
      have hmem : a ∈ z :: zs := List.mem_of_mem_getLast? ha
      rcases List.mem_cons.mp hx with rfl | hx2
      · exact (List.pairwise_cons.mp hs).1 a hmem
      · exact ih (List.pairwise_cons.mp hs).2 a ha x hx2

theorem chain_imp_mem {α : Type} {R S : α → α → Prop} {Q : α → Prop} :
    ∀ {l : List α}, (∀ x ∈ l, Q x) → List.Chain' R l →
      (∀ a b, Q a → Q b → R a b → S a b) → List.Chain' S l := by
  intro l
  induction l with
  | nil => intro _ _ _; exact List.chain'_nil
  | cons x xs ih =>
    intro hQ hR himp
    rw [List.chain'_cons'] at hR ⊢
    refine ⟨?_, ih (fun a ha => hQ a (List.mem_cons_of_mem _ ha)) hR.2 himp⟩
    intro y hy
    exact himp x y (hQ x (List.mem_cons_self _ _))
      (hQ y (List.mem_cons_of_mem _ (List.mem_of_mem_head? hy))) (hR.1 y hy)

/-- C6: the sessions partition the input — their review lists concatenate to a
permutation of the input (each event in exactly one session), sessions are
chronologically ordered and non-overlapping (each session ends strictly before
the next starts), each session is non-empty with `started_at`/`ended_at` the
min/max of its events' times and `total_comments` the sum of its events'
comment counts; the empty input yields zero sessions and a single event one
session with `started_at = ended_at`. -/
theorem sessions_partition (reviews : List Review) (commits : List Commit) :
    (((group_reviews_into_sessions reviews commits).map (·.reviews)).flatten).Perm
      reviews ∧
    (∀ s ∈ group_reviews_into_sessions reviews commits,
      s.reviews ≠ [] ∧
      (∀ x ∈ s.reviews, s.started_at ≤ x.submitted_at ∧ x.submitted_at ≤ s.ended_at) ∧
      s.started_at ∈ s.reviews.map (·.submitted_at) ∧
      s.ended_at ∈ s.reviews.map (·.submitted_at) ∧
      s.total_comments = (s.reviews.map (·.comments_count)).sum) ∧
    List.Chain' (fun s1 s2 => s1.ended_at < s2.started_at)
      (group_reviews_into_sessions reviews commits) ∧
    (reviews = [] → group_reviews_into_sessions reviews commits = []) ∧
    (∀ r : Review, ∃ s, group_reviews_into_sessions [r] commits = [s] ∧
      s.started_at = s.ended_at ∧ s.reviews = [r]) := by
  have hmap : (group_reviews_into_sessions reviews commits).map (·.reviews) =
      session_loop (commits.insertionSort commitLe)
        (reviews.insertionSort reviewLe) [] none := by
    by_cases h : reviews = []
    · subst h; rfl
    · rw [group_reviews_into_sessions, if_neg (by simpa [List.isEmpty_iff] using h)]
      exact filterMap_finalize_reviews _ (session_loop_ne_nil _ _ _ _)
  have hspec : ∀ s ∈ group_reviews_into_sessions reviews commits,
      s.reviews ≠ [] ∧
      (∀ x ∈ s.reviews, s.started_at ≤ x.submitted_at ∧ x.submitted_at ≤ s.ended_at) ∧
      s.started_at ∈ s.reviews.map (·.submitted_at) ∧
      s.ended_at ∈ s.reviews.map (·.submitted_at) ∧
      s.total_comments = (s.reviews.map (·.comments_count)).sum := by
    intro s hs
    by_cases h : reviews = []
    · subst h; simp [group_reviews_into_sessions] at hs
    · rw [group_reviews_into_sessions,
        if_neg (by simpa [List.isEmpty_iff] using h)] at hs
      obtain ⟨g, hg, hfin⟩ := List.mem_filterMap.mp hs
      have hgne := session_loop_ne_nil _ _ _ _ g hg
      rcases g with _ | ⟨r, rs⟩
      · exact absurd rfl hgne
      · obtain ⟨hrev, hbounds, hsmem, hemem, hsum⟩ := finalize_session_spec r rs s hfin
        rw [← hrev] at hbounds hsmem hemem hsum
        exact ⟨by rw [hrev]; exact List.cons_ne_nil _ _, hbounds, hsmem, hemem, hsum⟩
  have hsorted_all : ∀ s ∈ group_reviews_into_sessions reviews commits,
      List.Sorted reviewLe s.reviews := by
    intro s hs
    have hmem : s.reviews ∈
        (group_reviews_into_sessions reviews commits).map (·.reviews) :=
      List.mem_map_of_mem _ hs
    rw [hmap] at hmem
    have hsub := List.sublist_flatten_of_mem hmem
    rw [session_loop_flatten] at hsub
    exact List.Pairwise.sublist (by simpa using hsub)
      (List.sorted_insertionSort reviewLe reviews)
  refine ⟨?_, hspec, ?_, ?_, ?_⟩
  · have h1 : ((group_reviews_into_sessions reviews commits).map (·.reviews)).flatten =
        reviews.insertionSort reviewLe := by
      rw [hmap, session_loop_flatten]
      rfl
    rw [h1]
    exact List.perm_insertionSort reviewLe reviews
  · have hbound := session_loop_chain_boundary (commits.insertionSort commitLe)
      (reviews.insertionSort reviewLe) [] none rfl
    rw [← hmap] at hbound
    have hchain :=
      (List.chain'_map (fun s : ReviewSession => s.reviews)).mp hbound
    refine chain_imp_mem
      (Q := fun s => s ∈ group_reviews_into_sessions reviews commits)
      (fun x hx => hx) hchain ?_
    intro s1 s2 hq1 hq2 hR
    obtain ⟨hne1, _, hsmem1, hemem1, _⟩ := hspec s1 hq1
    obtain ⟨hne2, _, hsmem2, hemem2, _⟩ := hspec s2 hq2
    have hsort1 := hsorted_all s1 hq1
    have hsort2 := hsorted_all s2 hq2
    obtain ⟨a, ha⟩ := exists_getLast s1.reviews hne1
    rcases hs2 : s2.reviews with _ | ⟨b, bs⟩
    · exact absurd hs2 hne2
    have hsplit := hR a (Option.mem_def.mpr ha) b
      (by rw [hs2]; exact Option.mem_def.mpr rfl)
    have hab := splits_session_lt _ a b hsplit
    obtain ⟨x, hx, hxt⟩ := List.mem_map.mp hemem1
    have hxa := sorted_le_getLast s1.reviews hsort1 a ha x hx
    obtain ⟨y, hy, hyt⟩ := List.mem_map.mp hsmem2
    have hby : b.submitted_at ≤ y.submitted_at := by
      refine sorted_head_le s2.reviews hsort2 b ?_ y hy
      rw [hs2]
      rfl
    omega
  · intro h; subst h; rfl
  · intro r
    exact ⟨⟨r.pr_id, r.reviewer_id, [r], r.submitted_at, r.submitted_at,
      0 + r.comments_count⟩, rfl, rfl, rfl⟩

/-- Witness for C6: the theorem applied to a concrete two-event input, plus the
empty-input conjunct discharged at the empty list. -/
theorem sessions_partition_witness :
    (((group_reviews_into_sessions
        [mk_review 1 2 0 ReviewState.Commented 3,
         mk_review 1 2 90000 ReviewState.Approved 2] []).map (·.reviews)).flatten).Perm
      [mk_review 1 2 0 ReviewState.Commented 3,
       mk_review 1 2 90000 ReviewState.Approved 2] ∧
    group_reviews_into_sessions ([] : List Review) ([] : List Commit) = [] :=
  ⟨(sessions_partition
      [mk_review 1 2 0 ReviewState.Commented 3,
       mk_review 1 2 90000 ReviewState.Approved 2] []).1,
   (sessions_partition ([] : List Review) ([] : List Commit)).2.2.2.1 rfl⟩

/-! ### Recalculation: idempotence (C9) and non-negativity (C10) -/

theorem reset_users_add_xp (us : List (Nat × Int)) (uid : Nat) (d : Int) :
    reset_users (add_xp us uid d) = reset_users us := by
  simp only [reset_users, add_xp, List.map_map]
  apply List.map_congr_left
  intro u _
  by_cases h : u.1 = uid <;> simp [h]

theorem reset_users_idem (us : List (Nat × Int)) :
    reset_users (reset_users us) = reset_users us := by
  simp [reset_users, List.map_map]

theorem reset_users_apply_session (pr_commits : List Commit)
    (q : Option CommentQualityData) (rid : Nat) (acc : RecalcAcc) (s : ReviewSession) :
    reset_users (apply_session pr_commits q rid acc s).users = reset_users acc.users := by
  simp only [apply_session]
  split_ifs with h
  · exact reset_users_add_xp _ _ _
  · rfl

theorem reset_users_apply_group (reviews : List Review) (commits : List Commit)
    (qt : List ((Nat × Nat) × CommentQualityData)) (acc : RecalcAcc) (k : Nat × Nat) :
    reset_users (apply_group reviews commits qt acc k).users = reset_users acc.users := by
  simp only [apply_group]
  refine foldl_invariant
    (fun a : RecalcAcc => reset_users a.users = reset_users acc.users) _ _ _ rfl ?_
  intro a s hPa
  rw [reset_users_apply_session, hPa]

theorem reset_users_recalc (st : RecalcState) :
    reset_users (recalculate_all_xp st).2.users = reset_users st.users := by
  simp only [recalculate_all_xp]
  exact foldl_invariant
    (fun a : RecalcAcc => reset_users a.users = reset_users st.users)
    (apply_group st.reviews st.commits st.quality) (group_keys st.reviews) _
    (reset_users_idem st.users)
    (fun a k hPa => by
      show reset_users (apply_group st.reviews st.commits st.quality a k).users =
        reset_users st.users
      rw [reset_users_apply_group]
      exact hPa)

theorem recalculate_all_xp_congr (st1 st2 : RecalcState)
    (hu : reset_users st1.users = reset_users st2.users)
    (hr : st1.reviews = st2.reviews) (hc : st1.commits = st2.commits)
    (hq : st1.quality = st2.quality) :
    recalculate_all_xp st1 = recalculate_all_xp st2 := by
  simp only [recalculate_all_xp, hu, hr, hc, hq]

/-- C9: running `recalculate_all_xp` a second time on the state the first run
left behind — same persisted reviews, commits and quality aggregates — yields
exactly the same stats (in particular `total_xp_awarded`) and the same final
state, because the job first resets every user's xp (and every review's
`xp_earned`) to zero and then rebuilds everything from the unchanged persisted
data alone. -/
theorem recalculate_all_xp_idempotent (st : RecalcState) :
    recalculate_all_xp (recalculate_all_xp st).2 = recalculate_all_xp st ∧
    (recalculate_all_xp (recalculate_all_xp st).2).1.total_xp_awarded =
      (recalculate_all_xp st).1.total_xp_awarded := by
  have hmain : recalculate_all_xp (recalculate_all_xp st).2 = recalculate_all_xp st :=
    recalculate_all_xp_congr _ _ (reset_users_recalc st) rfl rfl rfl
  exact ⟨hmain, by rw [hmain]⟩

theorem add_xp_nonneg (us : List (Nat × Int)) (uid : Nat) (d : Int)
    (hus : ∀ p ∈ us, 0 ≤ p.2) (hd : 0 ≤ d) : ∀ p ∈ add_xp us uid d, 0 ≤ p.2 := by
  intro p hp
  simp only [add_xp, List.mem_map] at hp
  obtain ⟨u, hu, hup⟩ := hp
  have := hus u hu
  by_cases h : u.1 = uid
  · rw [← hup]
    simp only [h, if_pos]
    omega
  · rw [← hup]
    simp only [h, if_neg, if_false]
    omega

theorem apply_session_users_nonneg (pc : List Commit) (q : Option CommentQualityData)
    (rid : Nat) (acc : RecalcAcc) (s : ReviewSession)
    (h : ∀ p ∈ acc.users, 0 ≤ p.2) :
    ∀ p ∈ (apply_session pc q rid acc s).users, 0 ≤ p.2 := by
  simp only [apply_session]
  split_ifs with hxp
  · exact add_xp_nonneg _ _ _ h (le_of_lt hxp)
  · exact h

theorem recalc_users_nonneg (st : RecalcState) :
    ∀ p ∈ (recalculate_all_xp st).2.users, 0 ≤ p.2 := by
  simp only [recalculate_all_xp]
  refine foldl_invariant (fun a : RecalcAcc => ∀ p ∈ a.users, 0 ≤ p.2) _ _ _ ?_ ?_
  · intro p hp
    simp only [reset_users, List.mem_map] at hp
    obtain ⟨u, _, hup⟩ := hp
    rw [← hup]
  · intro a k hPa
    simp only [apply_group]
    refine foldl_invariant (fun a2 : RecalcAcc => ∀ p ∈ a2.users, 0 ≤ p.2) _ _ _ hPa ?_
    intro a2 s hPa2
    exact apply_session_users_nonneg _ _ _ _ _ hPa2

/-- C10: for every session with a non-negative comment tally and every
optional prior-commit time, `calculate_session_xp` returns 0 or at least the
base 10 — never a negative amount — and the recalculation job only adds
strictly positive awards, so every recalculated user XP total is
non-negative. -/
theorem session_xp_nonneg_and_recalc_nonneg :
    (∀ (s : ReviewSession) (cb : Option Int), 0 ≤ s.total_comments →
      calculate_session_xp s cb = 0 ∨ 10 ≤ calculate_session_xp s cb) ∧
    (∀ st : RecalcState, ∀ p ∈ (recalculate_all_xp st).2.users, 0 ≤ p.2) := by
  constructor
  · intro s cb hc
    have hfb := fast_bonus_nonneg s.started_at cb
    rw [calculate_session_xp_eq]
    split_ifs <;> first | exact Or.inl rfl | (right; omega)
  · exact recalc_users_nonneg

/-- Witness for C10: the 7-comment session of Scenario B has a non-negative
comment count and its score is 0 or at least 10. -/
theorem session_xp_nonneg_and_recalc_nonneg_witness :
    (0 : Int) ≤ 7 ∧
    (calculate_session_xp
        ⟨1, 2, [mk_review 1 2 0 ReviewState.ChangesRequested 7], 0, 1800, 7⟩ none = 0 ∨
      10 ≤ calculate_session_xp
        ⟨1, 2, [mk_review 1 2 0 ReviewState.ChangesRequested 7], 0, 1800, 7⟩ none) :=
  ⟨by decide,
   session_xp_nonneg_and_recalc_nonneg.1
     ⟨1, 2, [mk_review 1 2 0 ReviewState.ChangesRequested 7], 0, 1800, 7⟩ none
     (by decide)⟩

end ReviewRoyale
